import Mathlib

/-!
Verification of the Comet-Hive-Agent shortcut engine: shallow embedding of `src/comet_engine.py` and proofs of its specified
properties.

Modelling conventions:

* Python `Dict[str, T]` (an insertion-ordered mapping with unique keys,
  last write wins) is embedded as an association list `List (String × T)`
  with `dictFind` (first match) and `dictInsert` (overwrite in place,
  else append) — exactly the observable semantics of `dict` lookup and
  `d[k] = v`.
* `float` confidence is embedded as `ℚ`: the code performs only the order
  comparisons `0.0 <= c <= 1.0` against exactly representable constants,
  on which IEEE-754 ordering and rational ordering agree.
* `datetime.utcnow().isoformat()` is embedded by threading the current
  timestamp string `now` as an explicit parameter into the operations
  that read the clock.
* `Dict[str, Any]` metadata/context bags are pass-through data the code
  never inspects; they are embedded as string-keyed association lists.
* `hashlib.sha256(...).hexdigest()` is embedded by a full SHA-256
  implementation over `Nat` with explicit `% 2^32` arithmetic, applied
  to the UTF-8 bytes of the input string.
* Methods that may mutate the engine are state transformers
  `CometEngine → result × CometEngine`; read-only methods return the
  engine unchanged so that absence of mutation is a stated fact.
-/

/-! ## SHA-256 over `Nat` (embedding of `hashlib.sha256(...).hexdigest()`) -/

/-- Truncate to a 32-bit word. -/
def w32 (x : Nat) : Nat := x % 4294967296

/-- Right rotation of a 32-bit word (input assumed `< 2^32`). -/
def rotr32 (n x : Nat) : Nat := w32 ((x >>> n) ||| (x <<< (32 - n)))

/-- The SHA-256 round constants. -/
def K256 : List Nat :=
  [1116352408, 1899447441, 3049323471, 3921009573, 961987163,
   1508970993, 2453635748, 2870763221, 3624381080, 310598401,
   607225278, 1426881987, 1925078388, 2162078206, 2614888103,
   3248222580, 3835390401, 4022224774, 264347078, 604807628,
   770255983, 1249150122, 1555081692, 1996064986, 2554220882,
   2821834349, 2952996808, 3210313671, 3336571891, 3584528711,
   113926993, 338241895, 666307205, 773529912, 1294757372,
   1396182291, 1695183700, 1986661051, 2177026350, 2456956037,
   2730485921, 2820302411, 3259730800, 3345764771, 3516065817,
   3600352804, 4094571909, 275423344, 430227734, 506948616,
   659060556, 883997877, 958139571, 1322822218, 1537002063,
   1747873779, 1955562222, 2024104815, 2227730452, 2361852424,
   2428436474, 2756734187, 3204031479, 3329325298]

/-- Working state of the SHA-256 compression function: eight 32-bit words. -/
structure Sha256State where
  h0 : Nat
  h1 : Nat
  h2 : Nat
  h3 : Nat
  h4 : Nat
  h5 : Nat
  h6 : Nat
  h7 : Nat
deriving DecidableEq

/-- The SHA-256 initial hash value. -/
def sha256Init : Sha256State :=
  { h0 := 1779033703
    h1 := 3144134277
    h2 := 1013904242
    h3 := 2773480762
    h4 := 1359893119
    h5 := 2600822924
    h6 := 528734635
    h7 := 1541459225 }

/-- Group a byte list into big-endian 32-bit words. -/
def bytesToWords : List Nat → List Nat
  | b0 :: b1 :: b2 :: b3 :: rest =>
      (b0 * 16777216 + b1 * 65536 + b2 * 256 + b3) :: bytesToWords rest
  | _ => []

/-- Extend the 16-word message schedule by `fuel` more words. -/
def extendSchedule : Nat → List Nat → List Nat
  | 0, ws => ws
  | fuel + 1, ws =>
      let i := ws.length
      let x15 := ws.getD (i - 15) 0
      let x2 := ws.getD (i - 2) 0
      let s0 := (rotr32 7 x15) ^^^ (rotr32 18 x15) ^^^ (x15 >>> 3)
      let s1 := (rotr32 17 x2) ^^^ (rotr32 19 x2) ^^^ (x2 >>> 10)
      extendSchedule fuel (ws ++ [w32 (ws.getD (i - 16) 0 + s0 + ws.getD (i - 7) 0 + s1)])

/-- One SHA-256 compression round; `wk` pairs a schedule word with a round constant. -/
def sha256Round (t : Nat × Nat × Nat × Nat × Nat × Nat × Nat × Nat) (wk : Nat × Nat) :
    Nat × Nat × Nat × Nat × Nat × Nat × Nat × Nat :=
  let (a, b, c, d, e, f, g, h) := t
  let bigS1 := (rotr32 6 e) ^^^ (rotr32 11 e) ^^^ (rotr32 25 e)
  let ch := (e &&& f) ^^^ ((4294967295 ^^^ e) &&& g)
  let temp1 := w32 (h + bigS1 + ch + wk.2 + wk.1)
  let bigS0 := (rotr32 2 a) ^^^ (rotr32 13 a) ^^^ (rotr32 22 a)
  let maj := (a &&& b) ^^^ (a &&& c) ^^^ (b &&& c)
  let temp2 := w32 (bigS0 + maj)
  (w32 (temp1 + temp2), a, b, c, w32 (d + temp1), e, f, g)

/-- Process one 512-bit chunk (given as its 16 words). -/
def sha256Chunk (st : Sha256State) (ws : List Nat) : Sha256State :=
  let ws64 := extendSchedule 48 ws
  let (a, b, c, d, e, f, g, h) :=
    (ws64.zip K256).foldl sha256Round (st.h0, st.h1, st.h2, st.h3, st.h4, st.h5, st.h6, st.h7)
  ⟨w32 (st.h0 + a), w32 (st.h1 + b), w32 (st.h2 + c), w32 (st.h3 + d),
   w32 (st.h4 + e), w32 (st.h5 + f), w32 (st.h6 + g), w32 (st.h7 + h)⟩

/-- SHA-256 padding: append `0x80`, zeros, and the 64-bit big-endian bit length. -/
def padMessage (msg : List Nat) : List Nat :=
  let bitLen := 8 * msg.length
  let zeros := (119 - (msg.length % 64)) % 64
  msg ++ [128] ++ List.replicate zeros 0 ++
    ((List.range 8).map fun i => (bitLen >>> (56 - 8 * i)) % 256)

/-- Split a byte list into 64-byte chunks (`fuel` bounds the recursion). -/
def toChunksAux : Nat → List Nat → List (List Nat)
  | 0, _ => []
  | _ + 1, [] => []
  | fuel + 1, l => l.take 64 :: toChunksAux fuel (l.drop 64)

/-- Big-endian bytes of a 32-bit word. -/
def wordBytes (w : Nat) : List Nat :=
  [(w >>> 24) % 256, (w >>> 16) % 256, (w >>> 8) % 256, w % 256]

/-- SHA-256 digest of a byte list, as 32 bytes. -/
def sha256Bytes (msg : List Nat) : List Nat :=
  let padded := padMessage msg
  let final := (toChunksAux padded.length padded).foldl
    (fun st chunk => sha256Chunk st (bytesToWords chunk)) sha256Init
  wordBytes final.h0 ++ wordBytes final.h1 ++ wordBytes final.h2 ++ wordBytes final.h3 ++
    wordBytes final.h4 ++ wordBytes final.h5 ++ wordBytes final.h6 ++ wordBytes final.h7

/-- The sixteen lowercase hexadecimal digits. -/
def hexDigits : List Char := "0123456789abcdef".toList

/-- Lowercase hex digit of `n % 16`. -/
def hexChar (n : Nat) : Char := hexDigits.getD (n % 16) '0'

/-- Two-character lowercase hex rendering of a byte. -/
def byteHex (b : Nat) : List Char := [hexChar (b / 16), hexChar b]

/-- Lowercase hex string of a byte list (`hexdigest` formatting). -/
def bytesHex (bs : List Nat) : String := String.mk (bs.flatMap byteHex)

/-- UTF-8 bytes of a string (`content.encode('utf-8')`). -/
def strBytes (s : String) : List Nat := s.toUTF8.toList.map (fun b => b.toNat)

/-- Embedding of `CometEngine.generate_content_hash` (and of the identical
`hashlib.sha256(content.encode('utf-8')).hexdigest()` call in `create_citation`):
the method reads no engine state. -/
def generate_content_hash (content : String) : String :=
  bytesHex (sha256Bytes (strBytes content))

/-! ## Data model -/

/-- String-keyed bag of pass-through values (`Dict[str, Any]` the code never
inspects beyond copying). -/
abbrev Bag := List (String × String)

/-- Embedding of the `VerifiedCitation` dataclass fields. -/
structure VerifiedCitation where
  source_id : String
  content_hash : String
  timestamp : String
  verification_method : String
deriving DecidableEq

/-- Embedding of `VerifiedCitation` construction: the dataclass constructor runs
`__post_init__`, which raises `ValueError` when `content_hash` is falsy (empty). -/
def VerifiedCitation.make (source_id content_hash timestamp verification_method : String) :
    Except String VerifiedCitation :=
  if content_hash = "" then Except.error "Citation must have content_hash"
  else Except.ok ⟨source_id, content_hash, timestamp, verification_method⟩

/-- Embedding of the `ShortcutNode` dataclass fields. -/
structure ShortcutNode where
  node_id : String
  pattern : String
  action : String
  confidence : ℚ
  verified_citations : List VerifiedCitation
  design_implications : Bag
deriving DecidableEq

/-- Embedding of `ShortcutNode.validate`. -/
def ShortcutNode.validate (n : ShortcutNode) : Bool :=
  if ¬ (0 ≤ n.confidence ∧ n.confidence ≤ 1) then false
  else if n.node_id = "" ∨ n.pattern = "" then false
  else true

/-- A citation as flattened into an execution record (timestamp dropped). -/
structure FlatCitation where
  source_id : String
  content_hash : String
  verification_method : String
deriving DecidableEq

/-- The record dict built and logged by `execute_shortcut`. -/
structure ExecutionRecord where
  node_id : String
  action : String
  confidence : ℚ
  timestamp : String
  verified_citations : List FlatCitation
  design_implications : Bag
  context : Bag
deriving DecidableEq

/-! ### Python `dict` as an association list -/

/-- `d[k]` lookup (first matching key; keys are unique in every dict we build). -/
def dictFind {α : Type} (d : List (String × α)) (k : String) : Option α :=
  match d with
  | [] => none
  | (k₀, v₀) :: rest => if k₀ = k then some v₀ else dictFind rest k

/-- `d[k] = v`: overwrite in place when the key exists, else append. -/
def dictInsert {α : Type} (d : List (String × α)) (k : String) (v : α) :
    List (String × α) :=
  match d with
  | [] => [(k, v)]
  | (k₀, v₀) :: rest => if k₀ = k then (k, v) :: rest else (k₀, v₀) :: dictInsert rest k v

/-! ### The engine -/

/-- Embedding of the `CometEngine` instance state. -/
structure CometEngine where
  shortcuts : List (String × ShortcutNode)
  execution_log : List ExecutionRecord
  schema_version : String
deriving DecidableEq

/-- Embedding of `CometEngine.__init__`. -/
def CometEngine.init : CometEngine :=
  { shortcuts := [], execution_log := [], schema_version := "1.0.0" }

/-- Embedding of `CometEngine.register_shortcut`: state transformer returning
the `bool` result and the updated engine. -/
def register_shortcut (e : CometEngine) (node : ShortcutNode) : Bool × CometEngine :=
  if ¬ node.validate then (false, e)
  else (true, { e with shortcuts := dictInsert e.shortcuts node.node_id node })

/-- The `result` dict built inside `execute_shortcut` (with the clock reading
`now` passed explicitly). -/
def executionResult (node_id : String) (node : ShortcutNode) (now : String) (context : Bag) :
    ExecutionRecord :=
  { node_id := node_id
    action := node.action
    confidence := node.confidence
    timestamp := now
    verified_citations := node.verified_citations.map fun cit =>
      { source_id := cit.source_id
        content_hash := cit.content_hash
        verification_method := cit.verification_method }
    design_implications := node.design_implications
    context := context }

/-- Embedding of `CometEngine.execute_shortcut`, with the
`datetime.utcnow().isoformat()` reading passed in as `now`. -/
def execute_shortcut (e : CometEngine) (node_id : String) (context : Bag) (now : String) :
    Option ExecutionRecord × CometEngine :=
  match dictFind e.shortcuts node_id with
  | none => (none, e)
  | some node =>
      let result := executionResult node_id node now context
      (some result, { e with execution_log := e.execution_log ++ [result] })

/-- Per-shortcut reduced view in the exported schema. -/
structure SchemaEntry where
  pattern : String
  action : String
  confidence : ℚ
  verified_citations : Nat
  design_implications : Bag
deriving DecidableEq

/-- The dict returned by `export_schema`. -/
structure Schema where
  schema_version : String
  shortcuts : List (String × SchemaEntry)
  total_executions : Nat
deriving DecidableEq

/-- The reduced view of one registered node (the dict-comprehension body in
`export_schema`). -/
def reduceNode (node : ShortcutNode) : SchemaEntry :=
  { pattern := node.pattern
    action := node.action
    confidence := node.confidence
    verified_citations := node.verified_citations.length
    design_implications := node.design_implications }

/-- Embedding of `CometEngine.export_schema`: builds the schema dict from the
state and leaves the state untouched. -/
def export_schema (e : CometEngine) : Schema × CometEngine :=
  ({ schema_version := e.schema_version
     shortcuts := e.shortcuts.map fun p => (p.1, reduceNode p.2)
     total_executions := e.execution_log.length }, e)

/-- Embedding of `CometEngine.get_execution_log` at the value level: the
returned sequence is (a copy of) the internal log, state untouched. The
object-identity content of `.copy()` is modelled separately in the heap
model below. -/
def get_execution_log (e : CometEngine) : List ExecutionRecord × CometEngine :=
  (e.execution_log, e)

/-- Embedding of the module-level `create_citation` helper (clock reading
passed as `now`); constructing the dataclass runs `__post_init__`. -/
def create_citation (source_id content verification_method now : String) :
    Except String VerifiedCitation :=
  VerifiedCitation.make source_id (generate_content_hash content) now verification_method

/-! ### Heap model of list identity for `get_execution_log`

`get_execution_log` returns `self.execution_log.copy()`. To state the
defensive-copy property (mutating the returned list does not affect the
engine) we model Python list objects explicitly: a store of list objects
addressed by index; the engine's log lives at some address, and `.copy()`
allocates a fresh object with equal contents. -/

/-- A heap of list objects; an address is an index into the store. -/
abbrev Store := List (List ExecutionRecord)

/-- Contents of the list object at address `a`. -/
def readList (σ : Store) (a : Nat) : List ExecutionRecord := σ.getD a []

/-- In-place replacement of the contents of the list object at address `a`
(e.g. Python `lst.append(...)`). -/
def writeList (σ : Store) (a : Nat) (l : List ExecutionRecord) : Store := σ.set a l

/-- Heap-level `get_execution_log`: allocate a fresh list object holding a copy
of the log at `logAddr`, returning its (fresh) address and the new store. -/
def get_execution_log_heap (σ : Store) (logAddr : Nat) : Nat × Store :=
  (σ.length, σ ++ [readList σ logAddr])

/-! ## Reachable engine states

Engine states reachable from `CometEngine.__init__` by any sequence of the
four public methods; the natural number counts the successful
`execute_shortcut` calls. `export_schema` and `get_execution_log` return
the state unchanged, so their steps are included for completeness but do
not move the state. -/

inductive Reachable : CometEngine → Nat → Prop
  | init : Reachable CometEngine.init 0
  | register (e : CometEngine) (n : Nat) (node : ShortcutNode) :
      Reachable e n → Reachable (register_shortcut e node).2 n
  | execute (e : CometEngine) (n : Nat) (node_id : String) (context : Bag) (now : String) :
      Reachable e n →
      Reachable (execute_shortcut e node_id context now).2
        (if (execute_shortcut e node_id context now).1.isSome then n + 1 else n)
  | exportStep (e : CometEngine) (n : Nat) :
      Reachable e n → Reachable (export_schema e).2 n
  | getLog (e : CometEngine) (n : Nat) :
      Reachable e n → Reachable (get_execution_log e).2 n

/-! ## Helper lemmas -/

theorem validate_iff (n : ShortcutNode) :
    n.validate = true ↔
      n.node_id ≠ "" ∧ n.pattern ≠ "" ∧ 0 ≤ n.confidence ∧ n.confidence ≤ 1 := by
  by_cases h1 : 0 ≤ n.confidence ∧ n.confidence ≤ 1 <;>
    by_cases h2 : n.node_id = "" ∨ n.pattern = "" <;>
      simp [ShortcutNode.validate, h1, h2] <;> tauto

theorem dictFind_dictInsert {α : Type} (d : List (String × α)) (k k' : String) (v : α) :
    dictFind (dictInsert d k v) k' = if k = k' then some v else dictFind d k' := by
  induction d with
  | nil => simp [dictInsert, dictFind]
  | cons p rest ih =>
      obtain ⟨k₀, v₀⟩ := p
      by_cases h : k₀ = k
      · subst h
        by_cases h' : k₀ = k' <;> simp [dictInsert, dictFind, h']
      · by_cases h' : k₀ = k'
        · subst h'
          have hk : ¬ k = k₀ := fun hk => h hk.symm
          simp [dictInsert, dictFind, h, hk]
        · simp [dictInsert, dictFind, h, h', ih]

theorem dictFind_map {α β : Type} (f : α → β) (d : List (String × α)) (k : String) :
    dictFind (d.map fun p => (p.1, f p.2)) k = (dictFind d k).map f := by
  induction d with
  | nil => rfl
  | cons p rest ih =>
      obtain ⟨k₀, v₀⟩ := p
      by_cases h : k₀ = k <;> simp [dictFind, h, ih]

theorem reachable_version_length (e : CometEngine) (n : Nat) (h : Reachable e n) :
    e.schema_version = "1.0.0" ∧ e.execution_log.length = n := by
  induction h with
  | init => exact ⟨rfl, rfl⟩
  | register e' n' node _ ih =>
      by_cases hv : node.validate <;> simp [register_shortcut, hv] <;> exact ih
  | execute e' n' node_id context now _ ih =>
      cases hfind : dictFind e'.shortcuts node_id <;>
        simp [execute_shortcut, hfind] <;> exact ih
  | exportStep _ _ _ ih => exact ih
  | getLog e' n' _ ih => exact ih

theorem reachable_registry_valid (e : CometEngine) (n : Nat) (h : Reachable e n) :
    ∀ id node, dictFind e.shortcuts id = some node → node.validate = true := by
  induction h with
  | init => intro id node hf; simp [CometEngine.init, dictFind] at hf
  | register e' n' nd _ ih =>
      intro id node hf
      by_cases hv : nd.validate
      · simp [register_shortcut, hv] at hf
        rw [dictFind_dictInsert] at hf
        split at hf
        · cases hf; exact hv
        · exact ih id node hf
      · simp [register_shortcut, hv] at hf
        exact ih id node hf
  | execute e' n' node_id context now _ ih =>
      intro id node hf
      cases hfind : dictFind e'.shortcuts node_id <;>
        simp [execute_shortcut, hfind] at hf <;> exact ih id node hf
  | exportStep _ _ _ ih => exact ih
  | getLog e' n' _ ih => exact ih

theorem string_mk_length (l : List Char) : (String.mk l).length = l.length := rfl

theorem flatMap_byteHex_length (bs : List Nat) :
    (bs.flatMap byteHex).length = 2 * bs.length := by
  induction bs with
  | nil => rfl
  | cons b rest ih => simp [byteHex] at ih ⊢; omega

theorem sha256Bytes_length (msg : List Nat) : (sha256Bytes msg).length = 32 := by
  simp [sha256Bytes, wordBytes]

theorem gch_length (s : String) : (generate_content_hash s).length = 64 := by
  unfold generate_content_hash bytesHex
  rw [string_mk_length, flatMap_byteHex_length, sha256Bytes_length]

theorem hexChar_mem (n : Nat) : hexChar n ∈ hexDigits := by
  have h : n % 16 < 16 := Nat.mod_lt _ (by norm_num)
  have h' : n % 16 < hexDigits.length := by simpa [hexDigits] using h
  unfold hexChar
  rw [List.getD_eq_getElem _ _ h']
  exact List.getElem_mem h'

theorem gch_data_hex (s : String) (c : Char) (hc : c ∈ (generate_content_hash s).data) :
    c ∈ hexDigits := by
  have hc' : c ∈ (sha256Bytes (strBytes s)).flatMap byteHex := hc
  rw [List.mem_flatMap] at hc'
  obtain ⟨b, -, hcb⟩ := hc'
  simp only [byteHex, List.mem_cons, List.mem_singleton, List.not_mem_nil, or_false] at hcb
  rcases hcb with h | h <;> (subst h; exact hexChar_mem _)

theorem readList_append_self (σ : Store) (x : List ExecutionRecord) :
    readList (σ ++ [x]) σ.length = x := by
  unfold readList
  rw [List.getD_append_right _ _ _ _ (le_refl _)]
  simp

theorem readList_append_lt (σ : Store) (x : List ExecutionRecord) (a : Nat)
    (h : a < σ.length) : readList (σ ++ [x]) a = readList σ a :=
  List.getD_append _ _ _ _ h

theorem readList_set_ne (σ : Store) (a b : Nat) (l : List ExecutionRecord) (h : b ≠ a) :
    readList (writeList σ b l) a = readList σ a := by
  induction σ generalizing a b with
  | nil => rfl
  | cons hd tl ih =>
      cases b with
      | zero =>
          cases a with
          | zero => exact absurd rfl h
          | succ a' => rfl
      | succ b' =>
          cases a with
          | zero => rfl
          | succ a' =>
              simpa [writeList, readList] using ih a' b' (fun hb => h (by rw [hb]))

/-! ## Concrete fixtures for witnesses -/

/-- A shortcut passing validation, with confidence at the inclusive boundary 1. -/
def goodNode : ShortcutNode :=
  { node_id := "a", pattern := "p", action := "act", confidence := 1,
    verified_citations := [], design_implications := [] }

/-- A shortcut failing validation (confidence above 1). -/
def badNode : ShortcutNode := { goodNode with confidence := 3 / 2 }

/-- Engine obtained by registering `goodNode` in a fresh engine. -/
def e1 : CometEngine := (register_shortcut CometEngine.init goodNode).2

/-! ## Claims -/

/-- C1: `register_shortcut` returns `true` iff the node passes validation
(non-empty `node_id`, non-empty `pattern`, confidence in the closed interval
`[0, 1]`, boundaries included); when validation fails it returns `false` and
the engine — in particular the registry mapping — is exactly as before; when
it passes, the node is stored under its `node_id`, replacing any prior entry
with that id and leaving every other key and the rest of the state unchanged. -/
theorem register_shortcut_spec (e : CometEngine) (node : ShortcutNode) :
    ((register_shortcut e node).1 = true ↔
        node.node_id ≠ "" ∧ node.pattern ≠ "" ∧
          0 ≤ node.confidence ∧ node.confidence ≤ 1) ∧
    ((register_shortcut e node).1 = false → (register_shortcut e node).2 = e) ∧
    ((register_shortcut e node).1 = true →
        (register_shortcut e node).2.shortcuts = dictInsert e.shortcuts node.node_id node ∧
        dictFind (register_shortcut e node).2.shortcuts node.node_id = some node ∧
        (∀ k, k ≠ node.node_id →
            dictFind (register_shortcut e node).2.shortcuts k = dictFind e.shortcuts k) ∧
        (register_shortcut e node).2.execution_log = e.execution_log ∧
        (register_shortcut e node).2.schema_version = e.schema_version) := by
  by_cases hv : node.validate = true
  · refine ⟨by rw [← validate_iff]; simp [register_shortcut, hv], ?_, ?_⟩
    · simp [register_shortcut, hv]
    · intro _
      refine ⟨by simp [register_shortcut, hv], ?_, ?_,
        by simp [register_shortcut, hv], by simp [register_shortcut, hv]⟩
      · simp [register_shortcut, hv, dictFind_dictInsert]
      · intro k hk
        simp [register_shortcut, hv, dictFind_dictInsert, Ne.symm hk]
  · rw [Bool.not_eq_true] at hv
    refine ⟨by rw [← validate_iff]; simp [register_shortcut, hv], ?_, ?_⟩
    · simp [register_shortcut, hv]
    · intro habs
      rw [show (register_shortcut e node).1 = false by simp [register_shortcut, hv]] at habs
      exact absurd habs (by simp)

/-- Witness for C1: registering `goodNode` (confidence exactly 1) in a fresh
engine succeeds and stores it; registering `badNode` (confidence 3/2) fails
and leaves the engine untouched. -/
theorem register_shortcut_spec_witness :
    (register_shortcut CometEngine.init goodNode).1 = true ∧
    dictFind (register_shortcut CometEngine.init goodNode).2.shortcuts "a" = some goodNode ∧
    (register_shortcut CometEngine.init badNode).1 = false ∧
    (register_shortcut CometEngine.init badNode).2 = CometEngine.init := by
  have hgood := register_shortcut_spec CometEngine.init goodNode
  have hbad := register_shortcut_spec CometEngine.init badNode
  have h1 : (register_shortcut CometEngine.init goodNode).1 = true :=
    hgood.1.mpr (by refine ⟨by decide, by decide, ?_, ?_⟩ <;> norm_num [goodNode])
  have h3 : (register_shortcut CometEngine.init badNode).1 = false := by
    cases hb : (register_shortcut CometEngine.init badNode).1
    · rfl
    · exact absurd (hbad.1.mp hb).2.2.2 (by norm_num [badNode, goodNode])
  exact ⟨h1, (hgood.2.2 h1).2.1, h3, hbad.2.1 h3⟩

/-- C2: executing a registered id returns exactly the record built from the
stored node — its id, action, confidence, the clock reading, its citations
flattened to source id / content hash / verification method (timestamp
dropped), its metadata bag, and the caller's context verbatim — and appends
exactly that record at the end of the execution log (so the log grows by one
per successful call, in call order), leaving registry and version unchanged. -/
theorem execute_shortcut_found (e : CometEngine) (id : String) (node : ShortcutNode)
    (context : Bag) (now : String) (h : dictFind e.shortcuts id = some node) :
    (execute_shortcut e id context now).1 = some (executionResult id node now context) ∧
    (executionResult id node now context).node_id = id ∧
    (executionResult id node now context).action = node.action ∧
    (executionResult id node now context).confidence = node.confidence ∧
    (executionResult id node now context).timestamp = now ∧
    (executionResult id node now context).verified_citations
      = node.verified_citations.map
          (fun cit => ⟨cit.source_id, cit.content_hash, cit.verification_method⟩) ∧
    (executionResult id node now context).design_implications = node.design_implications ∧
    (executionResult id node now context).context = context ∧
    (execute_shortcut e id context now).2.execution_log
      = e.execution_log ++ [executionResult id node now context] ∧
    (execute_shortcut e id context now).2.execution_log.length
      = e.execution_log.length + 1 ∧
    (execute_shortcut e id context now).2.shortcuts = e.shortcuts ∧
    (execute_shortcut e id context now).2.schema_version = e.schema_version := by
  refine ⟨?_, rfl, rfl, rfl, rfl, rfl, rfl, rfl, ?_, ?_, ?_, ?_⟩ <;>
    simp [execute_shortcut, h, executionResult]

/-- Witness for C2: executing `"a"` on the engine holding `goodNode` returns
the expected record and yields a log of length 1. -/
theorem execute_shortcut_found_witness :
    (execute_shortcut e1 "a" [("k", "1")] "t").1
      = some (executionResult "a" goodNode "t" [("k", "1")]) ∧
    (execute_shortcut e1 "a" [("k", "1")] "t").2.execution_log
      = [executionResult "a" goodNode "t" [("k", "1")]] ∧
    (execute_shortcut e1 "a" [("k", "1")] "t").2.execution_log.length = 1 := by
  have h := execute_shortcut_found e1 "a" goodNode [("k", "1")] "t" (by decide)
  obtain ⟨h1, -, -, -, -, -, -, -, happ, hlen, -, -⟩ := h
  refine ⟨h1, ?_, by simpa using hlen⟩
  simpa using happ

/-- C3: executing an id that is not registered returns `none` and leaves the
whole engine state — registry and log included — exactly as before. -/
theorem execute_shortcut_not_found (e : CometEngine) (id : String) (context : Bag)
    (now : String) (h : dictFind e.shortcuts id = none) :
    execute_shortcut e id context now = (none, e) := by
  simp [execute_shortcut, h]

/-- Witness for C3: executing a never-registered id on a fresh engine. -/
theorem execute_shortcut_not_found_witness :
    execute_shortcut CometEngine.init "missing" [] "t" = (none, CometEngine.init) :=
  execute_shortcut_not_found CometEngine.init "missing" [] "t" (by decide)

/-- C4: in every engine state reachable from a fresh engine by any sequence of
`register_shortcut`, `execute_shortcut`, `export_schema` and
`get_execution_log` calls, every node stored in the registry satisfies the
validation predicate: non-empty `node_id`, non-empty `pattern`, and
confidence in `[0, 1]`. -/
theorem reachable_registry_validate (e : CometEngine) (n : Nat) (h : Reachable e n) :
    ∀ id node, dictFind e.shortcuts id = some node →
      node.node_id ≠ "" ∧ node.pattern ≠ "" ∧
        0 ≤ node.confidence ∧ node.confidence ≤ 1 := by
  intro id node hf
  exact (validate_iff node).mp (reachable_registry_valid e n h id node hf)

/-- Witness for C4: the engine reached by registering `goodNode` holds it, and
the invariant instantiates to `goodNode`'s validity. -/
theorem reachable_registry_validate_witness :
    goodNode.node_id ≠ "" ∧ goodNode.pattern ≠ "" ∧
      0 ≤ goodNode.confidence ∧ goodNode.confidence ≤ 1 := by
  have h : Reachable e1 0 :=
    Reachable.register CometEngine.init 0 goodNode Reachable.init
  exact reachable_registry_validate e1 0 h "a" goodNode (by decide)

/-- C5: `export_schema` returns schema version `"1.0.0"` (on any reachable
engine), maps each registered id to exactly the reduced view of its node —
pattern, action, confidence, the *count* of its citations, and its metadata
(`reduceNode`) — and nothing else, reports `total_executions` equal to the
log length, which equals the number of successful execute calls since engine
creation, and does not mutate the engine. -/
theorem export_schema_spec (e : CometEngine) (n : Nat) (h : Reachable e n) :
    (export_schema e).1.schema_version = "1.0.0" ∧
    (∀ id, dictFind (export_schema e).1.shortcuts id
        = (dictFind e.shortcuts id).map reduceNode) ∧
    (∀ nd : ShortcutNode, reduceNode nd =
        ⟨nd.pattern, nd.action, nd.confidence, nd.verified_citations.length,
         nd.design_implications⟩) ∧
    (export_schema e).1.total_executions = e.execution_log.length ∧
    (export_schema e).1.total_executions = n ∧
    (export_schema e).2 = e := by
  obtain ⟨hv, hl⟩ := reachable_version_length e n h
  refine ⟨hv, ?_, fun nd => rfl, rfl, by simpa [export_schema] using hl, rfl⟩
  intro id
  simpa [export_schema] using dictFind_map reduceNode e.shortcuts id

/-- Witness for C5: the exported snapshot of the engine holding `goodNode`
after one successful execution. -/
theorem export_schema_spec_witness :
    (export_schema (execute_shortcut e1 "a" [] "t").2).1.schema_version = "1.0.0" ∧
    dictFind (export_schema (execute_shortcut e1 "a" [] "t").2).1.shortcuts "a"
      = (dictFind (execute_shortcut e1 "a" [] "t").2.shortcuts "a").map reduceNode ∧
    (export_schema (execute_shortcut e1 "a" [] "t").2).1.total_executions = 1 ∧
    (export_schema (execute_shortcut e1 "a" [] "t").2).2
      = (execute_shortcut e1 "a" [] "t").2 := by
  have hr : Reachable (execute_shortcut e1 "a" [] "t").2 1 := by
    have h0 : Reachable e1 0 :=
      Reachable.register CometEngine.init 0 goodNode Reachable.init
    have h1 := Reachable.execute e1 0 "a" [] "t" h0
    simpa [show (execute_shortcut e1 "a" [] "t").1.isSome = true by decide] using h1
  have h := export_schema_spec (execute_shortcut e1 "a" [] "t").2 1 hr
  exact ⟨h.1, h.2.1 "a", h.2.2.2.2.1, h.2.2.2.2.2⟩

/-- C6: `generate_content_hash` is a deterministic pure function: identical
inputs give identical outputs, and every output is a string of exactly 64
characters, each a lowercase hexadecimal digit. -/
theorem generate_content_hash_spec (s t : String) (h : s = t) :
    generate_content_hash s = generate_content_hash t ∧
    (generate_content_hash s).length = 64 ∧
    (generate_content_hash s).data.all (fun c => decide (c ∈ hexDigits)) = true := by
  subst h
  refine ⟨rfl, gch_length s, ?_⟩
  rw [List.all_eq_true]
  intro c hc
  simpa using gch_data_hex s c hc

/-- Witness for C6 at the empty input string. -/
theorem generate_content_hash_spec_witness :
    generate_content_hash "" = generate_content_hash "" ∧
    (generate_content_hash "").length = 64 ∧
    (generate_content_hash "").data.all (fun c => decide (c ∈ hexDigits)) = true :=
  generate_content_hash_spec "" "" rfl

/-- C7 (heap model): `get_execution_log` returns a defensive copy — the
returned list object has the same contents as the internal log but a fresh
address, and overwriting the returned object's contents (e.g. appending to
it) changes neither the internal log nor what a subsequent
`get_execution_log` call returns. -/
theorem get_execution_log_defensive (σ : Store) (logAddr : Nat) (h : logAddr < σ.length) :
    readList (get_execution_log_heap σ logAddr).2 (get_execution_log_heap σ logAddr).1
      = readList σ logAddr ∧
    (get_execution_log_heap σ logAddr).1 ≠ logAddr ∧
    ∀ l : List ExecutionRecord,
      readList
          (writeList (get_execution_log_heap σ logAddr).2
            (get_execution_log_heap σ logAddr).1 l) logAddr
        = readList σ logAddr ∧
      readList
          (get_execution_log_heap
            (writeList (get_execution_log_heap σ logAddr).2
              (get_execution_log_heap σ logAddr).1 l) logAddr).2
          (get_execution_log_heap
            (writeList (get_execution_log_heap σ logAddr).2
              (get_execution_log_heap σ logAddr).1 l) logAddr).1
        = readList σ logAddr := by
  refine ⟨readList_append_self σ _, (Nat.ne_of_lt h).symm, ?_⟩
  intro l
  have hw : readList
      (writeList (σ ++ [readList σ logAddr]) σ.length l) logAddr = readList σ logAddr := by
    rw [readList_set_ne _ _ _ _ (Nat.ne_of_lt h).symm]
    exact readList_append_lt σ _ logAddr h
  exact ⟨hw, (readList_append_self _ _).trans hw⟩

/-- Sample record for the C7 witness. -/
def sampleRecord : ExecutionRecord := executionResult "a" goodNode "t" []

/-- Witness for C7: a one-object store whose log sits at address 0; the copy
is fresh and appending `sampleRecord` to it leaves address 0 untouched. -/
theorem get_execution_log_defensive_witness :
    readList (get_execution_log_heap [[]] 0).2 (get_execution_log_heap [[]] 0).1
      = readList [[]] 0 ∧
    (get_execution_log_heap [[]] 0).1 ≠ 0 ∧
    readList
        (writeList (get_execution_log_heap [[]] 0).2
          (get_execution_log_heap [[]] 0).1 [sampleRecord]) 0
      = readList [[]] 0 ∧
    readList
        (get_execution_log_heap
          (writeList (get_execution_log_heap [[]] 0).2
            (get_execution_log_heap [[]] 0).1 [sampleRecord]) 0).2
        (get_execution_log_heap
          (writeList (get_execution_log_heap [[]] 0).2
            (get_execution_log_heap [[]] 0).1 [sampleRecord]) 0).1
      = readList [[]] 0 := by
  have h := get_execution_log_defensive [[]] 0 (by decide)
  exact ⟨h.1, h.2.1, (h.2.2 [sampleRecord]).1, (h.2.2 [sampleRecord]).2⟩

/-- C8: constructing a `VerifiedCitation` with an empty `content_hash` is
rejected (the `ValueError` branch of `__post_init__`), and with any
non-empty `content_hash` it succeeds with all four fields held exactly as
supplied. -/
theorem citation_make_spec (source_id content_hash timestamp verification_method : String) :
    (content_hash = "" →
      VerifiedCitation.make source_id content_hash timestamp verification_method
        = Except.error "Citation must have content_hash") ∧
    (content_hash ≠ "" →
      ∃ c : VerifiedCitation,
        VerifiedCitation.make source_id content_hash timestamp verification_method
          = Except.ok c ∧
        c.source_id = source_id ∧ c.content_hash = content_hash ∧
        c.timestamp = timestamp ∧ c.verification_method = verification_method) := by
  constructor
  · intro h
    simp [VerifiedCitation.make, h]
  · intro h
    exact ⟨⟨source_id, content_hash, timestamp, verification_method⟩,
      by simp [VerifiedCitation.make, h], rfl, rfl, rfl, rfl⟩

/-- Witness for C8: the empty digest is rejected; the digest `"abc"` is
accepted and stored unchanged. -/
theorem citation_make_spec_witness :
    VerifiedCitation.make "s" "" "t" "sha256"
      = Except.error "Citation must have content_hash" ∧
    ∃ c : VerifiedCitation,
      VerifiedCitation.make "s" "abc" "t" "sha256" = Except.ok c ∧
      c.source_id = "s" ∧ c.content_hash = "abc" ∧
      c.timestamp = "t" ∧ c.verification_method = "sha256" :=
  ⟨(citation_make_spec "s" "" "t" "sha256").1 rfl,
   (citation_make_spec "s" "abc" "t" "sha256").2 (by decide)⟩

/-- C9: `create_citation` succeeds for every input — the SHA-256 hex digest is
always a 64-character (hence non-empty) string, so the empty-digest rejection
in `VerifiedCitation` construction is unreachable from it — and the returned
citation's `content_hash` is exactly `generate_content_hash content`. -/
theorem create_citation_spec (source_id content verification_method now : String) :
    create_citation source_id content verification_method now
      = Except.ok
          ⟨source_id, generate_content_hash content, now, verification_method⟩ ∧
    generate_content_hash content ≠ "" ∧
    (generate_content_hash content).length = 64 := by
  have hlen := gch_length content
  have hne : generate_content_hash content ≠ "" := by
    intro hemp
    rw [hemp] at hlen
    simp at hlen
  refine ⟨?_, hne, hlen⟩
  simp [create_citation, VerifiedCitation.make, hne]

/-- C10: the validation predicate never inspects `action` — validation of a
node is unchanged by replacing its `action` — so a node with non-empty
`node_id`, non-empty `pattern` and confidence in `[0, 1]` registers
successfully and is stored even when its `action` is the empty string. -/
theorem register_ignores_action (e : CometEngine) (node : ShortcutNode)
    (h1 : node.node_id ≠ "") (h2 : node.pattern ≠ "") (h3 : 0 ≤ node.confidence)
    (h4 : node.confidence ≤ 1) :
    (∀ a : String,
        ShortcutNode.validate { node with action := a } = ShortcutNode.validate node) ∧
    ShortcutNode.validate { node with action := "" } = true ∧
    (register_shortcut e { node with action := "" }).1 = true ∧
    dictFind (register_shortcut e { node with action := "" }).2.shortcuts node.node_id
      = some { node with action := "" } := by
  have hv : ShortcutNode.validate { node with action := "" } = true :=
    (validate_iff _).mpr ⟨h1, h2, h3, h4⟩
  refine ⟨fun a => rfl, hv, ?_, ?_⟩
  · simp [register_shortcut, hv]
  · simp [register_shortcut, hv, dictFind_dictInsert]

/-- Witness for C10: `goodNode` with its action blanked still registers and is
stored. -/
theorem register_ignores_action_witness :
    ShortcutNode.validate { goodNode with action := "" } = true ∧
    (register_shortcut CometEngine.init { goodNode with action := "" }).1 = true ∧
    dictFind
        (register_shortcut CometEngine.init { goodNode with action := "" }).2.shortcuts
        "a"
      = some { goodNode with action := "" } := by
  have h := register_ignores_action CometEngine.init goodNode
    (by decide) (by decide) (by norm_num [goodNode]) (by norm_num [goodNode])
  exact ⟨h.2.1, h.2.2.1, h.2.2.2⟩
